import Mathlib

/-!
Verification of the EEE_Practical_4 LUT-generation pipeline.

The repository contains three Python scripts:
* `generate.py` — the main STM32 DAC LUT generator: synthetic sine /
  sawtooth / triangle LUTs (`RESOLUTION = 4095`, i.e. 2^12 - 1), plus a
  WAV-file pipeline (dtype-based normalization, linspace resampling,
  clipping) with a placeholder-sine fallback on any per-file error.
* `Practical_4/generate_LUT_vals.py` — a smaller script producing the
  same three synthetic waveforms at `N = 128`.
* `Practical_4/wav_LUT_vals.py` — an alternative WAV pipeline
  (sample-width dispatch, stride/tile resampling, min-max normalization
  with a constant-signal branch), returning `None` on any per-file error.

Numpy floating-point arithmetic is embedded as exact arithmetic over
`ℚ` (and `ℝ` where `np.sin` and `np.pi` occur); `astype(int)` /
`astype(np.uint32)` truncation toward zero is embedded by `trunc` below
(equal to `Int.floor` on the non-negative values that arise here).
-/

namespace Practical4

/-- Truncation toward zero on `ℚ`, the semantics of numpy `astype(int)`
applied to a (finite) float value. -/
def trunc (q : ℚ) : ℤ := if 0 ≤ q then ⌊q⌋ else ⌈q⌉

/-- Truncation toward zero on `ℝ`, for the sine formula (numpy computes
`np.sin` on floats; we embed it as the exact real function). -/
noncomputable def truncR (x : ℝ) : ℤ := if 0 ≤ x then ⌊x⌋ else ⌈x⌉

theorem trunc_eq_floor {q : ℚ} (h : 0 ≤ q) : trunc q = ⌊q⌋ := if_pos h

theorem truncR_eq_floor {x : ℝ} (h : 0 ≤ x) : truncR x = ⌊x⌋ := if_pos h

theorem trunc_intCast (z : ℤ) : trunc (z : ℚ) = z := by
  unfold trunc
  split
  · exact Int.floor_intCast z
  · exact Int.ceil_intCast z

namespace Generate

/-- `generate.py` line 10: `RESOLUTION = 4095  # 12-bit DAC`. -/
def RESOLUTION : ℤ := 4095

/-- `generate.py` `generate_sine_lut(n_samples)`:
`t = np.linspace(0, 2*np.pi, n_samples, endpoint=False)` gives
`t[i] = i * 2π / n`; then `((np.sin(t) + 1) / 2 * R).astype(int)`.
The resolution `R` (the module-level `RESOLUTION`) is kept as a
parameter. -/
noncomputable def generate_sine_lut (R : ℤ) (n : ℕ) : List ℤ :=
  (List.range n).map fun i : ℕ =>
    truncR ((Real.sin (2 * Real.pi * (i : ℝ) / (n : ℝ)) + 1) / 2 * (R : ℝ))

/-- `generate.py` `generate_sawtooth_lut(n_samples)`:
`np.linspace(0, R, n_samples, endpoint=False).astype(int)`, i.e. the
value `i * R / n` truncated, for `i = 0, …, n-1`. -/
def generate_sawtooth_lut (R : ℤ) (n : ℕ) : List ℤ :=
  (List.range n).map fun i : ℕ => trunc ((i : ℚ) * (R : ℚ) / (n : ℚ))

/-- `generate.py` `generate_triangle_lut(n_samples)`:
`half = n // 2`; rising `np.linspace(0, R, half, endpoint=False)`,
falling `np.linspace(R, 0, n - half, endpoint=False)` (whose `i`-th
entry is `R - i*R/(n-half)`), concatenated and truncated. -/
def generate_triangle_lut (R : ℤ) (n : ℕ) : List ℤ :=
  ((List.range (n / 2)).map fun i : ℕ =>
    trunc ((i : ℚ) * (R : ℚ) / ((n / 2 : ℕ) : ℚ))) ++
  ((List.range (n - n / 2)).map fun i : ℕ =>
    trunc ((R : ℚ) - (i : ℚ) * (R : ℚ) / ((n - n / 2 : ℕ) : ℚ)))

end Generate

namespace Generate

/-- `generate.py` line 71: `np.linspace(0, len-1, n_samples, dtype=int)`.
Entry `i` is `i * (L-1) / (n-1)` truncated (non-negative, so floored;
Nat division). For `n = 1` numpy returns the single point `[0]`, which
the Nat convention `_ / 0 = 0` reproduces. -/
def downIdx (L n i : ℕ) : ℕ := i * (L - 1) / (n - 1)

/-- `generate.py` line 76: `np.linspace(0, len-1, n_samples)` (endpoint
included). Query point `i` is `i * (L-1) / (n-1)`; for `n = 1` numpy
returns `[0]`, which the convention `_ / 0 = 0` in `ℚ` reproduces. -/
def upQuery (L n i : ℕ) : ℚ := ((i : ℚ) * ((L - 1 : ℕ) : ℚ)) / (((n - 1 : ℕ)) : ℚ)

/-- `np.interp(q, x_old, fp)` with `x_old = np.arange(len(fp))`, for
queries `q ∈ [0, len(fp) - 1]`: linear interpolation between the two
neighbouring samples, returning the last sample at the right endpoint. -/
def interp (fp : List ℤ) (q : ℚ) : ℚ :=
  if (⌊q⌋).toNat + 1 < fp.length then
    ((fp.getD (⌊q⌋).toNat 0 : ℚ)) +
      (q - ((⌊q⌋).toNat : ℚ)) *
        ((fp.getD ((⌊q⌋).toNat + 1) 0 : ℚ) - (fp.getD (⌊q⌋).toNat 0 : ℚ))
  else
    (fp.getD (fp.length - 1) 0 : ℚ)

/-- `generate.py` lines 69–77: resample `normalized` to `n_samples`.
`len > n`: take the `n` linspace-selected indices (line 71–72);
otherwise (`len ≤ n`, which includes `len == n`): evaluate
`np.interp` at `n` evenly spaced query points and truncate
(`.astype(int)`, line 77). -/
def resample (normalized : List ℤ) (n : ℕ) : List ℤ :=
  if normalized.length > n then
    (List.range n).map fun i : ℕ => normalized.getD (downIdx normalized.length n i) 0
  else
    (List.range n).map fun i : ℕ => trunc (interp normalized (upQuery normalized.length n i))

/-- `generate.py` line 80: `np.clip(resampled, 0, RESOLUTION)`. -/
def clip (lo hi : ℤ) (l : List ℤ) : List ℤ := l.map fun x => max lo (min x hi)

/-- Result of `wavfile.read` followed by the stereo-to-mono reduction
(lines 46–54), tagged by the numpy dtype that drives the normalization
branch on lines 58–66. -/
inductive DecodedWav : Type where
  | i16 (data : List ℤ)
  | u8 (data : List ℤ)
  | flt (data : List ℚ)

/-- `generate.py` lines 58–66: dtype-dependent normalization to
`[0, RESOLUTION]`, truncating with `.astype(int)`. -/
def gen_normalize (R : ℤ) : DecodedWav → List ℤ
  | .i16 d => d.map fun x : ℤ => trunc (((x : ℚ) + 32768) / 65535 * (R : ℚ))
  | .u8 d => d.map fun x : ℤ => trunc ((x : ℚ) / 255 * (R : ℚ))
  | .flt d => d.map fun x => trunc ((x + 1) / 2 * (R : ℚ))

/-- `generate.py` `process_wav_file(filepath, n_samples)`: the argument
models the outcome of `wavfile.read` plus channel reduction — `none`
when reading/decoding raised an exception (missing file, bad
container), `some (d, sr)` on success. On success: normalize,
resample, clip (lines 57–85); on failure the `except` branch
(lines 87–90) returns the placeholder `generate_sine_lut(n_samples)`
with sample rate 44100. -/
noncomputable def process_wav_file (decoded : Option (DecodedWav × ℕ)) (n : ℕ) :
    List ℤ × ℕ :=
  match decoded with
  | none => (generate_sine_lut RESOLUTION n, 44100)
  | some (d, sr) => (clip 0 RESOLUTION (resample (gen_normalize RESOLUTION d) n), sr)

/-- `generate.py` lines 120–123: each WAV source is processed
independently in a loop; the batch is the list of per-source results. -/
noncomputable def processBatch (srcs : List (Option (DecodedWav × ℕ))) (n : ℕ) :
    List (List ℤ × ℕ) :=
  srcs.map fun s => process_wav_file s n

end Generate

namespace WavLUTVals

/-- Python extended slicing `data[::s]`: the elements at indices
`0, s, 2s, …`, of which there are `⌈L/s⌉`. -/
def strideTake {α : Type} (data : List α) (d : α) (s : ℕ) : List α :=
  (List.range ((data.length + s - 1) / s)).map fun i : ℕ => data.getD (i * s) d

/-- `wav_LUT_vals.py` lines 31–41: dtype dispatch on the sample width.
8-bit data is recentred by subtracting 128; 16- and 32-bit data is used
as is; any other width raises `ValueError("Unsupported sample width")`
(modelled as the `unsupportedWidth` error). -/
inductive WavError : Type where
  | unsupportedWidth (w : ℕ)
  | sourceUnavailable

/-- A WAV file as seen by `wav_LUT_vals.process_wav_file` after
`readframes`: sample width in bytes, channel count, and the raw
integer samples produced by `np.frombuffer`. -/
structure WavData : Type where
  width : ℕ
  channels : ℕ
  raw : List ℤ

def decode_samples (width : ℕ) (raw : List ℤ) : Except WavError (List ℚ) :=
  if width = 1 then .ok (raw.map fun b : ℤ => (b : ℚ) - 128)
  else if width = 2 then .ok (raw.map fun b : ℤ => (b : ℚ))
  else if width = 4 then .ok (raw.map fun b : ℤ => (b : ℚ))
  else .error (.unsupportedWidth width)

/-- `wav_LUT_vals.py` lines 44–45: stereo keeps the left channel only,
`audio_data[::2]`. -/
def channel_reduce (channels : ℕ) (data : List ℚ) : List ℚ :=
  if channels = 2 then strideTake data 0 2 else data

/-- `np.tile(data, k)`: `k` copies of `data` concatenated. -/
def tile {α : Type} (data : List α) (k : ℕ) : List α :=
  (List.replicate k data).flatten

/-- `wav_LUT_vals.py` lines 48–58: stride decimation when the signal is
longer than the target (`step = L // target`, `data[::step][:target]`),
tiling plus a truncated extra copy when shorter
(`np.tile(data, target // L)` then the first `target % L` samples;
the code appends the remainder only when it is positive, which agrees
with unconditionally appending `take (target % L)`), identity when the
lengths agree. -/
def wav_resample (data : List ℚ) (target : ℕ) : List ℚ :=
  if data.length > target then
    (strideTake data 0 (data.length / target)).take target
  else if data.length < target then
    tile data (target / data.length) ++ data.take (target % data.length)
  else
    data

/-- `np.min` of a non-empty list (the empty case never arises in the
claims; numpy raises there). -/
def listMin : List ℚ → ℚ
  | [] => 0
  | x :: xs => xs.foldl min x

/-- `np.max` of a non-empty list. -/
def listMax : List ℚ → ℚ
  | [] => 0
  | x :: xs => xs.foldl max x

/-- `wav_LUT_vals.py` lines 60–75: min–max normalization to `[0, 4095]`
with `.astype(np.uint32)` truncation, the constant-signal branch
`np.full(target_samples, 2048, dtype=np.uint32)` when
`max_val == min_val`, and the final `np.clip(lut_values, 0, 4095)`
(on unsigned values only the upper bound can act). -/
def wav_normalize (audio : List ℚ) (target : ℕ) : List ℕ :=
  (if listMax audio ≠ listMin audio then
    audio.map fun x =>
      (trunc ((x - listMin audio) / (listMax audio - listMin audio) * 4095)).toNat
  else
    List.replicate target 2048).map fun v => min v 4095

/-- `wav_LUT_vals.py` `process_wav_file(filename, target_samples)`:
the `src` argument is `none` when `wave.open`/`readframes` raised
(missing or unreadable file), `some d` on a successful read. Any
exception inside the `try` block — including the unsupported-width
`ValueError` — lands in the handler on lines 83–85, which returns
`None`. On success: dtype decode, channel reduction, resampling,
then normalization (lines 31–75). -/
def process_wav_vals (src : Option WavData) (target : ℕ) : Option (List ℕ) :=
  match src with
  | none => none
  | some d =>
    match decode_samples d.width d.raw with
    | .error _ => none
    | .ok audio =>
      some (wav_normalize (wav_resample (channel_reduce d.channels audio) target) target)

end WavLUTVals

namespace GenerateLUTVals

/-- `Practical_4/generate_LUT_vals.py` triangle construction
(lines 16–19), with the script's fixed `N = 128` and
`max_val = 4095` kept as parameters: two `N//2`-sample halves,
`np.linspace(0, max_val, N//2, endpoint=False)` then
`np.linspace(max_val, 0, N//2, endpoint=False)`, truncated. -/
def triangle (R : ℤ) (N : ℕ) : List ℤ :=
  ((List.range (N / 2)).map fun i : ℕ =>
    trunc ((i : ℚ) * (R : ℚ) / ((N / 2 : ℕ) : ℚ))) ++
  ((List.range (N / 2)).map fun i : ℕ =>
    trunc ((R : ℚ) - (i : ℚ) * (R : ℚ) / ((N / 2 : ℕ) : ℚ)))

end GenerateLUTVals

/- ### Generic helper lemmas -/

theorem getD_map_range {α : Type} (f : ℕ → α) (d : α) {n i : ℕ}
    (h : i < n) : (((List.range n).map f).getD i d) = f i := by
  rw [List.getD_eq_getElem _ _ (by simpa using h)]
  simp

theorem mem_map_range {α : Type} {f : ℕ → α} {n : ℕ} {v : α}
    (h : v ∈ (List.range n).map f) : ∃ i, i < n ∧ v = f i := by
  obtain ⟨i, hi, rfl⟩ := List.mem_map.mp h
  exact ⟨i, List.mem_range.mp hi, rfl⟩

theorem floor_bounds_rat {x : ℚ} {R : ℤ} (h0 : 0 ≤ x) (h1 : x ≤ (R : ℚ)) :
    0 ≤ ⌊x⌋ ∧ ⌊x⌋ ≤ R := by
  constructor
  · exact Int.le_floor.mpr (by exact_mod_cast h0)
  · calc ⌊x⌋ ≤ ⌊(R : ℚ)⌋ := Int.floor_le_floor h1
      _ = R := Int.floor_intCast R

theorem floor_bounds_real {x : ℝ} {R : ℤ} (h0 : 0 ≤ x) (h1 : x ≤ (R : ℝ)) :
    0 ≤ ⌊x⌋ ∧ ⌊x⌋ ≤ R := by
  constructor
  · exact Int.le_floor.mpr (by exact_mod_cast h0)
  · calc ⌊x⌋ ≤ ⌊(R : ℝ)⌋ := Int.floor_le_floor h1
      _ = R := Int.floor_intCast R

/-- The sine formula value `(sin θ + 1)/2 * R` lies in `[0, R]` for `0 ≤ R`. -/
theorem sine_val_bounds (θ : ℝ) {R : ℤ} (hR : (0 : ℤ) ≤ R) :
    0 ≤ (Real.sin θ + 1) / 2 * (R : ℝ) ∧
      (Real.sin θ + 1) / 2 * (R : ℝ) ≤ (R : ℝ) := by
  have hs1 : Real.sin θ ≤ 1 := Real.sin_le_one θ
  have hs2 : -1 ≤ Real.sin θ := Real.neg_one_le_sin θ
  have hR' : (0 : ℝ) ≤ (R : ℝ) := by exact_mod_cast hR
  constructor
  · apply mul_nonneg _ hR'
    linarith
  · have h : (Real.sin θ + 1) / 2 ≤ 1 := by linarith
    calc (Real.sin θ + 1) / 2 * (R : ℝ) ≤ 1 * (R : ℝ) := by
          apply mul_le_mul_of_nonneg_right h hR'
      _ = (R : ℝ) := one_mul _

theorem getD_map_lt {α β : Type} (f : α → β) (l : List α) {i : ℕ}
    (h : i < l.length) (d : β) (d' : α) :
    (l.map f).getD i d = f (l.getD i d') := by
  rw [List.getD_eq_getElem _ _ (by simpa using h), List.getElem_map,
    List.getD_eq_getElem _ _ h]

theorem map_getD_range_self {α : Type} (l : List α) (d : α) :
    (List.range l.length).map (fun i : ℕ => l.getD i d) = l := by
  apply List.ext_getElem
  · rw [List.length_map, List.length_range]
  · intro i h1 h2
    rw [List.getElem_map, List.getElem_range, List.getD_eq_getElem _ _ h2]

theorem length_map_range {α : Type} (f : ℕ → α) (n : ℕ) :
    ((List.range n).map f).length = n := by
  rw [List.length_map, List.length_range]

theorem sine_lut_length (R : ℤ) (n : ℕ) :
    (Generate.generate_sine_lut R n).length = n := by
  unfold Generate.generate_sine_lut
  rw [List.length_map, List.length_range]

theorem sine_lut_mem_bounds {R : ℤ} (hR : (0 : ℤ) ≤ R) (n : ℕ) :
    ∀ v ∈ Generate.generate_sine_lut R n, 0 ≤ v ∧ v ≤ R := by
  intro v hv
  unfold Generate.generate_sine_lut at hv
  obtain ⟨i, _, rfl⟩ := mem_map_range hv
  obtain ⟨h0, h1⟩ := sine_val_bounds (2 * Real.pi * i / n) hR
  rw [truncR_eq_floor h0]
  exact floor_bounds_real h0 h1

/- ### Ramp value bounds -/

/-- A rising-ramp sample `i * R / m` truncates into `[0, R]`. -/
theorem trunc_ramp_bounds {R : ℤ} (hR : 0 ≤ R) {i m : ℕ}
    (him : i ≤ m) (hm : 0 < m) :
    0 ≤ trunc ((i : ℚ) * (R : ℚ) / (m : ℚ)) ∧
      trunc ((i : ℚ) * (R : ℚ) / (m : ℚ)) ≤ R := by
  have hRq : (0 : ℚ) ≤ (R : ℚ) := by exact_mod_cast hR
  have hmq : (0 : ℚ) < (m : ℚ) := by exact_mod_cast hm
  have h0 : (0 : ℚ) ≤ (i : ℚ) * (R : ℚ) / (m : ℚ) :=
    div_nonneg (mul_nonneg (Nat.cast_nonneg i) hRq) (le_of_lt hmq)
  have h1 : (i : ℚ) * (R : ℚ) / (m : ℚ) ≤ (R : ℚ) := by
    rw [div_le_iff hmq]
    have hiq : (i : ℚ) ≤ (m : ℚ) := by exact_mod_cast him
    calc (i : ℚ) * (R : ℚ) ≤ (m : ℚ) * (R : ℚ) :=
          mul_le_mul_of_nonneg_right hiq hRq
      _ = (R : ℚ) * (m : ℚ) := mul_comm _ _
  rw [trunc_eq_floor h0]
  exact floor_bounds_rat h0 h1

/-- The raw falling-ramp value `R - i * R / m` lies in `[0, R]`. -/
theorem fall_raw_bounds {R : ℤ} (hR : 0 ≤ R) {i m : ℕ}
    (him : i ≤ m) (hm : 0 < m) :
    (0 : ℚ) ≤ (R : ℚ) - (i : ℚ) * (R : ℚ) / (m : ℚ) ∧
      (R : ℚ) - (i : ℚ) * (R : ℚ) / (m : ℚ) ≤ (R : ℚ) := by
  have hRq : (0 : ℚ) ≤ (R : ℚ) := by exact_mod_cast hR
  have hmq : (0 : ℚ) < (m : ℚ) := by exact_mod_cast hm
  have hd0 : (0 : ℚ) ≤ (i : ℚ) * (R : ℚ) / (m : ℚ) :=
    div_nonneg (mul_nonneg (Nat.cast_nonneg i) hRq) (le_of_lt hmq)
  have hd1 : (i : ℚ) * (R : ℚ) / (m : ℚ) ≤ (R : ℚ) := by
    rw [div_le_iff hmq]
    have hiq : (i : ℚ) ≤ (m : ℚ) := by exact_mod_cast him
    calc (i : ℚ) * (R : ℚ) ≤ (m : ℚ) * (R : ℚ) :=
          mul_le_mul_of_nonneg_right hiq hRq
      _ = (R : ℚ) * (m : ℚ) := mul_comm _ _
  constructor <;> linarith

/-- A falling-ramp sample `R - i * R / m` truncates into `[0, R]`. -/
theorem trunc_fall_bounds {R : ℤ} (hR : 0 ≤ R) {i m : ℕ}
    (him : i ≤ m) (hm : 0 < m) :
    0 ≤ trunc ((R : ℚ) - (i : ℚ) * (R : ℚ) / (m : ℚ)) ∧
      trunc ((R : ℚ) - (i : ℚ) * (R : ℚ) / (m : ℚ)) ≤ R := by
  obtain ⟨h0, h1⟩ := fall_raw_bounds hR him hm
  rw [trunc_eq_floor h0]
  exact floor_bounds_rat h0 h1

theorem saw_lut_length (R : ℤ) (n : ℕ) :
    (Generate.generate_sawtooth_lut R n).length = n := by
  unfold Generate.generate_sawtooth_lut
  exact length_map_range _ _

theorem saw_lut_mem_bounds {R : ℤ} (hR : 0 ≤ R) (n : ℕ) :
    ∀ v ∈ Generate.generate_sawtooth_lut R n, 0 ≤ v ∧ v ≤ R := by
  intro v hv
  unfold Generate.generate_sawtooth_lut at hv
  obtain ⟨i, hi, rfl⟩ := mem_map_range hv
  exact trunc_ramp_bounds hR (le_of_lt hi) (lt_of_le_of_lt (Nat.zero_le i) hi)

theorem tri_lut_length (R : ℤ) (n : ℕ) :
    (Generate.generate_triangle_lut R n).length = n := by
  unfold Generate.generate_triangle_lut
  rw [List.length_append, length_map_range, length_map_range]
  omega

theorem tri_lut_mem_bounds {R : ℤ} (hR : 0 ≤ R) (n : ℕ) :
    ∀ v ∈ Generate.generate_triangle_lut R n, 0 ≤ v ∧ v ≤ R := by
  intro v hv
  unfold Generate.generate_triangle_lut at hv
  rcases List.mem_append.mp hv with h | h
  · obtain ⟨i, hi, rfl⟩ := mem_map_range h
    exact trunc_ramp_bounds hR (le_of_lt hi) (lt_of_le_of_lt (Nat.zero_le i) hi)
  · obtain ⟨i, hi, rfl⟩ := mem_map_range h
    exact trunc_fall_bounds hR (le_of_lt hi) (lt_of_le_of_lt (Nat.zero_le i) hi)

theorem lutvals_triangle_mem_bounds {R : ℤ} (hR : 0 ≤ R) (N : ℕ) :
    ∀ v ∈ GenerateLUTVals.triangle R N, 0 ≤ v ∧ v ≤ R := by
  intro v hv
  unfold GenerateLUTVals.triangle at hv
  rcases List.mem_append.mp hv with h | h
  · obtain ⟨i, hi, rfl⟩ := mem_map_range h
    exact trunc_ramp_bounds hR (le_of_lt hi) (lt_of_le_of_lt (Nat.zero_le i) hi)
  · obtain ⟨i, hi, rfl⟩ := mem_map_range h
    exact trunc_fall_bounds hR (le_of_lt hi) (lt_of_le_of_lt (Nat.zero_le i) hi)

/-- C2: shape and range invariants of the synthetic LUTs.
Claim C2: for every waveform kind (sine, sawtooth, triangle) and every
sample count `N > 0`, the generated LUT has length exactly `N` and
every value lies in `[0, R]` with `R = 2^bits - 1` (the code's
`RESOLUTION = 4095 = 2^12 - 1`).  Also covers the
`generate_LUT_vals.py` triangle construction at the script's fixed
`N = 128`. -/
theorem C2_lut_shape_and_range (n : ℕ) (h : 0 < n) :
    (4095 : ℤ) = 2 ^ 12 - 1 ∧
    (Generate.generate_sine_lut 4095 n).length = n ∧
    (Generate.generate_sawtooth_lut 4095 n).length = n ∧
    (Generate.generate_triangle_lut 4095 n).length = n ∧
    (∀ v ∈ Generate.generate_sine_lut 4095 n, 0 ≤ v ∧ v ≤ 4095) ∧
    (∀ v ∈ Generate.generate_sawtooth_lut 4095 n, 0 ≤ v ∧ v ≤ 4095) ∧
    (∀ v ∈ Generate.generate_triangle_lut 4095 n, 0 ≤ v ∧ v ≤ 4095) ∧
    (GenerateLUTVals.triangle 4095 128).length = 128 ∧
    (∀ v ∈ GenerateLUTVals.triangle 4095 128, 0 ≤ v ∧ v ≤ 4095) := by
  refine ⟨by norm_num, sine_lut_length _ _, saw_lut_length _ _,
    tri_lut_length _ _, sine_lut_mem_bounds (by norm_num) n,
    saw_lut_mem_bounds (by norm_num) n, tri_lut_mem_bounds (by norm_num) n,
    ?_, lutvals_triangle_mem_bounds (by norm_num) 128⟩
  unfold GenerateLUTVals.triangle
  rw [List.length_append, length_map_range, length_map_range]

theorem C2_lut_shape_and_range_witness :
    0 < 3 ∧
      ((4095 : ℤ) = 2 ^ 12 - 1 ∧
      (Generate.generate_sine_lut 4095 3).length = 3 ∧
      (Generate.generate_sawtooth_lut 4095 3).length = 3 ∧
      (Generate.generate_triangle_lut 4095 3).length = 3 ∧
      (∀ v ∈ Generate.generate_sine_lut 4095 3, 0 ≤ v ∧ v ≤ 4095) ∧
      (∀ v ∈ Generate.generate_sawtooth_lut 4095 3, 0 ≤ v ∧ v ≤ 4095) ∧
      (∀ v ∈ Generate.generate_triangle_lut 4095 3, 0 ≤ v ∧ v ≤ 4095) ∧
      (GenerateLUTVals.triangle 4095 128).length = 128 ∧
      (∀ v ∈ GenerateLUTVals.triangle 4095 128, 0 ≤ v ∧ v ≤ 4095)) :=
  ⟨by decide, C2_lut_shape_and_range 3 (by decide)⟩

/- ### Resampling lemmas -/

theorem strideTake_length {α : Type} (data : List α) (d : α) (s : ℕ) :
    (WavLUTVals.strideTake data d s).length = (data.length + s - 1) / s := by
  unfold WavLUTVals.strideTake
  exact length_map_range _ _

theorem tile_length {α : Type} (data : List α) (k : ℕ) :
    (WavLUTVals.tile data k).length = k * data.length := by
  unfold WavLUTVals.tile
  rw [List.length_flatten, List.map_replicate]
  simp [List.sum_replicate, smul_eq_mul]

theorem wav_resample_length (ds : List ℚ) (n : ℕ)
    (hd : 1 ≤ ds.length) (hn : 1 ≤ n) :
    (WavLUTVals.wav_resample ds n).length = n := by
  unfold WavLUTVals.wav_resample
  by_cases hgt : ds.length > n
  · rw [if_pos hgt, List.length_take, strideTake_length]
    have hs : 1 ≤ ds.length / n := (Nat.one_le_div_iff hn).mpr (le_of_lt hgt)
    have hle : n ≤ (ds.length + ds.length / n - 1) / (ds.length / n) := by
      rw [Nat.le_div_iff_mul_le hs]
      have h1 : n * (ds.length / n) ≤ ds.length := by
        calc n * (ds.length / n) = ds.length / n * n := Nat.mul_comm _ _
          _ ≤ ds.length := Nat.div_mul_le_self ds.length n
      omega
    exact Nat.min_eq_left hle
  · rw [if_neg hgt]
    by_cases hlt : ds.length < n
    · rw [if_pos hlt, List.length_append, tile_length, List.length_take,
        Nat.min_eq_left (le_of_lt (Nat.mod_lt n (by omega))),
        Nat.mul_comm (n / ds.length) ds.length]
      exact Nat.div_add_mod n ds.length
    · rw [if_neg hlt]
      omega

/-- The upsampling query points are the sample positions themselves when
the target length equals the source length. -/
theorem upQuery_self {L i : ℕ} (hL : 0 < L) (hi : i < L) :
    Generate.upQuery L L i = (i : ℚ) := by
  rcases Nat.lt_or_ge L 2 with h2 | h2
  · have : i = 0 := by omega
    subst this
    unfold Generate.upQuery
    simp
  · unfold Generate.upQuery
    have hne : ((L - 1 : ℕ) : ℚ) ≠ 0 := Nat.cast_ne_zero.mpr (by omega)
    exact mul_div_cancel_right₀ _ hne

/-- `np.interp` at an integer query point returns the sample there. -/
theorem interp_nat (xs : List ℤ) (i : ℕ) (hi : i < xs.length) :
    Generate.interp xs (i : ℚ) = (xs.getD i 0 : ℚ) := by
  unfold Generate.interp
  rw [Int.floor_natCast, Int.toNat_natCast]
  by_cases h : i + 1 < xs.length
  · rw [if_pos h]
    ring
  · rw [if_neg h]
    have : i = xs.length - 1 := by omega
    rw [this]

/-- C7: resampling always returns exactly `N` samples.
Claim C7: for every source signal of length `L ≥ 1` and every target
length `N ≥ 1`, resampling returns a sequence of length exactly `N`
(downsampling when `L > N`, upsampling when `L < N`), never a partial
or empty result.  Proved for both resamplers cited by the claim:
`generate.py` lines 69–77 (`Generate.resample`) and
`wav_LUT_vals.py` lines 48–58 (`WavLUTVals.wav_resample`). -/
theorem C7_resample_length (xs : List ℤ) (ds : List ℚ) (n : ℕ)
    (hx : 1 ≤ xs.length) (hd : 1 ≤ ds.length) (hn : 1 ≤ n) :
    (Generate.resample xs n).length = n ∧
      (WavLUTVals.wav_resample ds n).length = n := by
  constructor
  · unfold Generate.resample
    by_cases h : xs.length > n
    · rw [if_pos h]
      exact length_map_range _ _
    · rw [if_neg h]
      exact length_map_range _ _
  · exact wav_resample_length ds n hd hn

theorem C7_resample_length_witness :
    1 ≤ ([1] : List ℤ).length ∧ 1 ≤ ([0] : List ℚ).length ∧ 1 ≤ 2 ∧
      ((Generate.resample [1] 2).length = 2 ∧
        (WavLUTVals.wav_resample [0] 2).length = 2) :=
  ⟨by decide, by decide, by decide,
    C7_resample_length [1] [0] 2 (by decide) (by decide) (by decide)⟩

/-- C8: resampling to the source length is the identity.
Claim C8: for every integer-valued signal of length `L`, resampling it
to target length `N = L` returns the signal unchanged.  For
`generate.py` the `L ≤ N` branch evaluates `np.interp` at the integer
sample positions themselves; for `wav_LUT_vals.py` neither resampling
branch fires.  (`L ≥ 1`, as everywhere in the pipeline: `np.interp`
with an empty table raises.) -/
theorem C8_resample_identity (xs : List ℤ) (ds : List ℚ)
    (hx : 0 < xs.length) (hd : 0 < ds.length) :
    Generate.resample xs xs.length = xs ∧
      WavLUTVals.wav_resample ds ds.length = ds := by
  constructor
  · unfold Generate.resample
    rw [if_neg (lt_irrefl xs.length)]
    have key : ∀ i ∈ List.range xs.length,
        trunc (Generate.interp xs (Generate.upQuery xs.length xs.length i)) =
          xs.getD i 0 := by
      intro i hi
      have hi' : i < xs.length := List.mem_range.mp hi
      rw [upQuery_self hx hi', interp_nat xs i hi', trunc_intCast]
    rw [List.map_congr_left key]
    exact map_getD_range_self xs 0
  · unfold WavLUTVals.wav_resample
    rw [if_neg (lt_irrefl ds.length), if_neg (lt_irrefl ds.length)]

theorem C8_resample_identity_witness :
    0 < ([3, -2] : List ℤ).length ∧ 0 < ([(1 : ℚ)/2] : List ℚ).length ∧
      (Generate.resample [3, -2] ([3, -2] : List ℤ).length = [3, -2] ∧
        WavLUTVals.wav_resample [(1 : ℚ)/2] ([(1 : ℚ)/2] : List ℚ).length =
          [(1 : ℚ)/2]) :=
  ⟨by decide, by decide,
    C8_resample_identity [3, -2] [(1 : ℚ)/2] (by decide) (by decide)⟩

/- ### Sawtooth monotonicity (C5) -/

theorem floor_natCast_div (a b : ℕ) :
    ⌊((a : ℚ) / (b : ℚ))⌋ = ((a / b : ℕ) : ℤ) := by
  rw [Int.natCast_div]
  rw [show ((a : ℚ)) = (((a : ℤ) : ℚ)) from by push_cast; ring,
    Rat.floor_intCast_div_natCast]

/-- The `i`-th sawtooth sample is the integer `i * 4095 / n` (Nat
division). -/
theorem saw_getD {n i : ℕ} (hi : i < n) :
    (Generate.generate_sawtooth_lut 4095 n).getD i 0 = ((i * 4095 / n : ℕ) : ℤ) := by
  unfold Generate.generate_sawtooth_lut
  rw [getD_map_range _ _ hi]
  have h0 : (0 : ℚ) ≤ (i : ℚ) * ((4095 : ℤ) : ℚ) / (n : ℚ) := by positivity
  rw [trunc_eq_floor h0,
    show (i : ℚ) * ((4095 : ℤ) : ℚ) / (n : ℚ) = ((i * 4095 : ℕ) : ℚ) / (n : ℚ) from by
      push_cast; ring,
    floor_natCast_div]

/-- C5 counterexample.
Claim C5 states that the sawtooth LUT is strictly increasing for every
`N > 0`.  At `N = 4096` (> `RESOLUTION = 4095`) the ramp stride
`4095/4096` is below one, so consecutive samples repeat: samples 0 and
1 are both 0, refuting strict monotonicity as claimed. -/
theorem C5_counterexample :
    0 < 4096 ∧
      (Generate.generate_sawtooth_lut 4095 4096).getD 0 0 = 0 ∧
      (Generate.generate_sawtooth_lut 4095 4096).getD 1 0 = 0 ∧
      ¬ (∀ i, i + 1 < (Generate.generate_sawtooth_lut 4095 4096).length →
          (Generate.generate_sawtooth_lut 4095 4096).getD i 0 <
            (Generate.generate_sawtooth_lut 4095 4096).getD (i + 1) 0) := by
  have h0 : (Generate.generate_sawtooth_lut 4095 4096).getD 0 0 = 0 := by
    rw [saw_getD (by norm_num : (0 : ℕ) < 4096)]
    norm_num
  have h1 : (Generate.generate_sawtooth_lut 4095 4096).getD 1 0 = 0 := by
    rw [saw_getD (by norm_num : (1 : ℕ) < 4096)]
    norm_num
  refine ⟨by norm_num, h0, h1, fun hmono => ?_⟩
  have hlen : (Generate.generate_sawtooth_lut 4095 4096).length = 4096 :=
    saw_lut_length _ _
  have hlt := hmono 0 (by rw [hlen]; norm_num)
  rw [h0, h1] at hlt
  exact lt_irrefl 0 hlt

/-- C5 (amended): sawtooth strictness for sample counts up to `R`.
For every `N` with `0 < N ≤ 4095` the sawtooth LUT is strictly
increasing and its first value is 0.  (The claim's quantification over
all `N > 0` fails once `N` exceeds `RESOLUTION`, see the
counterexample; the repository only uses `N = 3333` and `N = 128`,
both within this range.) -/
theorem C5_sawtooth_strictly_increasing (n : ℕ) (h0 : 0 < n) (hn : n ≤ 4095) :
    (Generate.generate_sawtooth_lut 4095 n).getD 0 0 = 0 ∧
      ∀ i, i + 1 < (Generate.generate_sawtooth_lut 4095 n).length →
        (Generate.generate_sawtooth_lut 4095 n).getD i 0 <
          (Generate.generate_sawtooth_lut 4095 n).getD (i + 1) 0 := by
  have hlen := saw_lut_length (4095 : ℤ) n
  constructor
  · rw [saw_getD h0]
    norm_num
  · intro i hi
    rw [hlen] at hi
    rw [saw_getD (by omega : i < n), saw_getD hi]
    have key : i * 4095 / n < (i + 1) * 4095 / n := by
      have h1 : i * 4095 / n + 1 = (i * 4095 + n) / n := (Nat.add_div_right _ h0).symm
      have h2 : (i * 4095 + n) / n ≤ (i + 1) * 4095 / n := by
        apply Nat.div_le_div_right
        have hexp : (i + 1) * 4095 = i * 4095 + 4095 := by ring
        omega
      omega
    exact_mod_cast key

theorem C5_sawtooth_strictly_increasing_witness :
    0 < 4 ∧ 4 ≤ 4095 ∧
      ((Generate.generate_sawtooth_lut 4095 4).getD 0 0 = 0 ∧
        ∀ i, i + 1 < (Generate.generate_sawtooth_lut 4095 4).length →
          (Generate.generate_sawtooth_lut 4095 4).getD i 0 <
            (Generate.generate_sawtooth_lut 4095 4).getD (i + 1) 0) :=
  ⟨by decide, by decide,
    C5_sawtooth_strictly_increasing 4 (by decide) (by decide)⟩

/- ### Triangle shape (C6) -/

theorem tri_getD_rising {n i : ℕ} (hi : i < n / 2) :
    (Generate.generate_triangle_lut 4095 n).getD i 0 =
      trunc ((i : ℚ) * ((4095 : ℤ) : ℚ) / ((n / 2 : ℕ) : ℚ)) := by
  unfold Generate.generate_triangle_lut
  rw [List.getD_append _ _ _ _ (by rw [length_map_range]; exact hi),
    getD_map_range _ _ hi]

theorem tri_getD_falling {n i : ℕ} (h1 : n / 2 ≤ i) (h2 : i < n) :
    (Generate.generate_triangle_lut 4095 n).getD i 0 =
      trunc (((4095 : ℤ) : ℚ) -
        ((i - n / 2 : ℕ) : ℚ) * ((4095 : ℤ) : ℚ) / ((n - n / 2 : ℕ) : ℚ)) := by
  unfold Generate.generate_triangle_lut
  rw [List.getD_append_right _ _ _ _ (by rw [length_map_range]; exact h1),
    length_map_range, getD_map_range _ _ (by omega)]

/-- C6: triangle LUT shape.
Claim C6: the triangle LUT is a rising ramp over the first `N//2`
samples followed by a falling ramp over the remaining `N - N//2`
samples (for odd `N` the falling half absorbs the extra sample, e.g.
`N = 7` gives rising length 3 and falling length 4); the sequence is
non-decreasing up to the peak index `N//2` (the falling half's first
sample) and non-increasing from there, and the peak value is exactly
`R = 4095`. -/
theorem C6_triangle_shape (n : ℕ) (h : 0 < n) :
    (Generate.generate_triangle_lut 4095 n).length = n ∧
      (Generate.generate_triangle_lut 4095 n).getD (n / 2) 0 = 4095 ∧
      (∀ i, i < n / 2 →
        (Generate.generate_triangle_lut 4095 n).getD i 0 ≤
          (Generate.generate_triangle_lut 4095 n).getD (i + 1) 0) ∧
      (∀ i, n / 2 ≤ i → i + 1 < n →
        (Generate.generate_triangle_lut 4095 n).getD (i + 1) 0 ≤
          (Generate.generate_triangle_lut 4095 n).getD i 0) := by
  have hpeak : (Generate.generate_triangle_lut 4095 n).getD (n / 2) 0 = 4095 := by
    rw [tri_getD_falling (le_refl (n / 2)) (Nat.div_lt_self h one_lt_two)]
    rw [Nat.sub_self]
    simp only [Nat.cast_zero, zero_mul, zero_div, sub_zero]
    exact trunc_intCast 4095
  refine ⟨tri_lut_length _ _, hpeak, ?_, ?_⟩
  · intro i hi
    by_cases hcase : i + 1 < n / 2
    · rw [tri_getD_rising hi, tri_getD_rising hcase]
      have h0a : (0 : ℚ) ≤ (i : ℚ) * ((4095 : ℤ) : ℚ) / ((n / 2 : ℕ) : ℚ) := by
        positivity
      have h0b : (0 : ℚ) ≤ ((i + 1 : ℕ) : ℚ) * ((4095 : ℤ) : ℚ) /
          ((n / 2 : ℕ) : ℚ) := by
        positivity
      rw [trunc_eq_floor h0a, trunc_eq_floor h0b]
      apply Int.floor_le_floor
      gcongr
      simp
    · have hi1 : i + 1 = n / 2 := by omega
      rw [hi1, hpeak, tri_getD_rising hi]
      exact (trunc_ramp_bounds (by norm_num) (le_of_lt hi)
        (lt_of_le_of_lt (Nat.zero_le i) hi)).2
  · intro i hge hlt
    rw [tri_getD_falling hge (by omega), tri_getD_falling (by omega) hlt]
    have hj : (i + 1 - n / 2 : ℕ) = (i - n / 2) + 1 := by omega
    rw [hj]
    have hm : (0 : ℚ) < ((n - n / 2 : ℕ) : ℚ) := by
      have : 0 < n - n / 2 := by omega
      exact_mod_cast this
    have hle : ((i - n / 2 : ℕ) : ℚ) * ((4095 : ℤ) : ℚ) / ((n - n / 2 : ℕ) : ℚ) ≤
        (((i - n / 2) + 1 : ℕ) : ℚ) * ((4095 : ℤ) : ℚ) / ((n - n / 2 : ℕ) : ℚ) := by
      gcongr
      simp
    have hnn1 : (0 : ℚ) ≤ ((4095 : ℤ) : ℚ) -
        (((i - n / 2) + 1 : ℕ) : ℚ) * ((4095 : ℤ) : ℚ) / ((n - n / 2 : ℕ) : ℚ) := by
      refine (fall_raw_bounds (by norm_num) ?_ ?_).1
      · omega
      · omega
    have hnn2 : (0 : ℚ) ≤ ((4095 : ℤ) : ℚ) -
        ((i - n / 2 : ℕ) : ℚ) * ((4095 : ℤ) : ℚ) / ((n - n / 2 : ℕ) : ℚ) := by
      refine (fall_raw_bounds (by norm_num) ?_ ?_).1
      · omega
      · omega
    rw [trunc_eq_floor hnn1, trunc_eq_floor hnn2]
    exact Int.floor_le_floor (by linarith)

theorem C6_triangle_shape_witness :
    0 < 7 ∧
      ((Generate.generate_triangle_lut 4095 7).length = 7 ∧
        (Generate.generate_triangle_lut 4095 7).getD (7 / 2) 0 = 4095 ∧
        (∀ i, i < 7 / 2 →
          (Generate.generate_triangle_lut 4095 7).getD i 0 ≤
            (Generate.generate_triangle_lut 4095 7).getD (i + 1) 0) ∧
        (∀ i, 7 / 2 ≤ i → i + 1 < 7 →
          (Generate.generate_triangle_lut 4095 7).getD (i + 1) 0 ≤
            (Generate.generate_triangle_lut 4095 7).getD i 0)) :=
  ⟨by decide, C6_triangle_shape 7 (by decide)⟩

/- ### C9: end-to-end concrete values at N = 4, R = 15 -/

theorem floorR_eq {r : ℝ} {z : ℤ} (h1 : (z : ℝ) ≤ r) (h2 : r < z + 1) :
    ⌊r⌋ = z := Int.floor_eq_iff.mpr ⟨h1, h2⟩

/-- A truncated ramp sample, as an integer division. -/
theorem saw_val (i n : ℕ) (R : ℤ) (hR : 0 ≤ R) :
    trunc ((i : ℚ) * (R : ℚ) / (n : ℚ)) = ((i : ℤ) * R) / ((n : ℕ) : ℤ) := by
  have h0 : (0 : ℚ) ≤ (i : ℚ) * (R : ℚ) / (n : ℚ) :=
    div_nonneg (mul_nonneg (Nat.cast_nonneg i) (by exact_mod_cast hR))
      (Nat.cast_nonneg n)
  rw [trunc_eq_floor h0,
    show (i : ℚ) * (R : ℚ) / (n : ℚ) = (((i : ℤ) * R : ℤ) : ℚ) / ((n : ℕ) : ℚ) from by
      push_cast; ring,
    Rat.floor_intCast_div_natCast]

/-- C9: truncated sawtooth and sine LUTs at `N = 4`, `R = 15`.
Claim C9: with target count `N = 4` and resolution `R = 15`, the
sawtooth LUT equals `[0, 3, 7, 11]` (stride `15/4 = 3.75` truncated,
not rounded) and the sine LUT, sampled at `θ = 0, π/2, π, 3π/2`,
equals `[7, 15, 7, 0]` (truncated `(sin θ + 1)/2 * 15`; e.g.
`7.5` truncates to `7`). -/
theorem C9_concrete_luts :
    Generate.generate_sawtooth_lut 15 4 = [0, 3, 7, 11] ∧
      Generate.generate_sine_lut 15 4 = [7, 15, 7, 0] := by
  constructor
  · unfold Generate.generate_sawtooth_lut
    rw [show List.range 4 = [0, 1, 2, 3] from rfl]
    simp only [List.map_cons, List.map_nil]
    rw [saw_val 0 4 15 (by norm_num), saw_val 1 4 15 (by norm_num),
      saw_val 2 4 15 (by norm_num), saw_val 3 4 15 (by norm_num)]
    decide
  · have e0 : truncR ((Real.sin (2 * Real.pi * ((0 : ℕ) : ℝ) / ((4 : ℕ) : ℝ)) + 1) /
        2 * ((15 : ℤ) : ℝ)) = 7 := by
      rw [show 2 * Real.pi * ((0 : ℕ) : ℝ) / ((4 : ℕ) : ℝ) = 0 from by push_cast; ring,
        Real.sin_zero,
        show ((0 : ℝ) + 1) / 2 * ((15 : ℤ) : ℝ) = 15 / 2 from by push_cast; ring,
        truncR_eq_floor (by norm_num)]
      exact floorR_eq (by norm_num) (by norm_num)
    have e1 : truncR ((Real.sin (2 * Real.pi * ((1 : ℕ) : ℝ) / ((4 : ℕ) : ℝ)) + 1) /
        2 * ((15 : ℤ) : ℝ)) = 15 := by
      rw [show 2 * Real.pi * ((1 : ℕ) : ℝ) / ((4 : ℕ) : ℝ) = Real.pi / 2 from by
          push_cast; ring,
        Real.sin_pi_div_two,
        show ((1 : ℝ) + 1) / 2 * ((15 : ℤ) : ℝ) = 15 from by push_cast; ring,
        truncR_eq_floor (by norm_num)]
      exact floorR_eq (by norm_num) (by norm_num)
    have e2 : truncR ((Real.sin (2 * Real.pi * ((2 : ℕ) : ℝ) / ((4 : ℕ) : ℝ)) + 1) /
        2 * ((15 : ℤ) : ℝ)) = 7 := by
      rw [show 2 * Real.pi * ((2 : ℕ) : ℝ) / ((4 : ℕ) : ℝ) = Real.pi from by
          push_cast; ring,
        Real.sin_pi,
        show ((0 : ℝ) + 1) / 2 * ((15 : ℤ) : ℝ) = 15 / 2 from by push_cast; ring,
        truncR_eq_floor (by norm_num)]
      exact floorR_eq (by norm_num) (by norm_num)
    have e3 : truncR ((Real.sin (2 * Real.pi * ((3 : ℕ) : ℝ) / ((4 : ℕ) : ℝ)) + 1) /
        2 * ((15 : ℤ) : ℝ)) = 0 := by
      rw [show 2 * Real.pi * ((3 : ℕ) : ℝ) / ((4 : ℕ) : ℝ) = Real.pi / 2 + Real.pi from by
          push_cast; ring,
        Real.sin_add_pi, Real.sin_pi_div_two,
        show (-(1 : ℝ) + 1) / 2 * ((15 : ℤ) : ℝ) = 0 from by push_cast; ring,
        truncR_eq_floor (by norm_num)]
      exact Int.floor_zero
    unfold Generate.generate_sine_lut
    rw [show List.range 4 = [0, 1, 2, 3] from rfl]
    simp only [List.map_cons, List.map_nil]
    rw [e0, e1, e2, e3]

/- ### Constant-signal normalization (C1) -/

theorem foldl_min_replicate (L : ℕ) (a c : ℚ) :
    (List.replicate L c).foldl min a = if L = 0 then a else min a c := by
  induction L generalizing a with
  | zero => rfl
  | succ k ih =>
    rw [List.replicate_succ, List.foldl_cons, ih]
    rcases Nat.eq_zero_or_pos k with hk | hk
    · subst hk
      simp
    · rw [if_neg (by omega), if_neg (by omega), min_assoc, min_self]

theorem foldl_max_replicate (L : ℕ) (a c : ℚ) :
    (List.replicate L c).foldl max a = if L = 0 then a else max a c := by
  induction L generalizing a with
  | zero => rfl
  | succ k ih =>
    rw [List.replicate_succ, List.foldl_cons, ih]
    rcases Nat.eq_zero_or_pos k with hk | hk
    · subst hk
      simp
    · rw [if_neg (by omega), if_neg (by omega), max_assoc, max_self]

theorem listMin_replicate {L : ℕ} (hL : 0 < L) (c : ℚ) :
    WavLUTVals.listMin (List.replicate L c) = c := by
  obtain ⟨k, rfl⟩ : ∃ k, L = k + 1 := ⟨L - 1, by omega⟩
  rw [List.replicate_succ]
  show (List.replicate k c).foldl min c = c
  rw [foldl_min_replicate]
  split
  · rfl
  · exact min_self c

theorem listMax_replicate {L : ℕ} (hL : 0 < L) (c : ℚ) :
    WavLUTVals.listMax (List.replicate L c) = c := by
  obtain ⟨k, rfl⟩ : ∃ k, L = k + 1 := ⟨L - 1, by omega⟩
  rw [List.replicate_succ]
  show (List.replicate k c).foldl max c = c
  rw [foldl_max_replicate]
  split
  · rfl
  · exact max_self c

/-- The `max_val == min_val` branch of `wav_LUT_vals.py` (lines 70–75):
a constant signal normalizes to `target` copies of 2048. -/
theorem wav_normalize_const (c : ℚ) (L target : ℕ) (hL : 0 < L) :
    WavLUTVals.wav_normalize (List.replicate L c) target =
      List.replicate target 2048 := by
  unfold WavLUTVals.wav_normalize
  rw [listMax_replicate hL c, listMin_replicate hL c,
    if_neg (fun h : c ≠ c => h rfl), List.map_replicate]
  norm_num

/-- C1 counterexample.
Claim C1 states that a constant input signal normalizes to samples all
equal to `R // 2 = 4095 / 2 = 2047`.  The code's degenerate branch
(`wav_LUT_vals.py` line 72) instead writes `np.full(target, 2048)`:
on the constant signal `[5, 5, 5]` every output sample is 2048, not
2047. -/
theorem C1_counterexample :
    WavLUTVals.wav_normalize (List.replicate 3 (5 : ℚ)) 3 = [2048, 2048, 2048] ∧
      ¬ (∀ v ∈ WavLUTVals.wav_normalize (List.replicate 3 (5 : ℚ)) 3,
          v = 4095 / 2) := by
  have h := wav_normalize_const 5 3 3 (by norm_num)
  constructor
  · rw [h]
    rfl
  · intro hall
    have h2048 : (2048 : ℕ) ∈ WavLUTVals.wav_normalize (List.replicate 3 (5 : ℚ)) 3 := by
      rw [h]
      decide
    have := hall 2048 h2048
    norm_num at this

/-- C1 (amended): constant signals normalize to all-2048 output.
For every constant input signal (`max_val == min_val`) and every
target length, the normalization step of `wav_LUT_vals.py` produces an
output in which every sample equals 2048 (i.e. `(R + 1) // 2`, the
half-scale value of the 4096-count 12-bit code space), not
`R // 2 = 2047` as claimed. -/
theorem C1_constant_to_2048 (c : ℚ) (L target : ℕ) (hL : 0 < L) :
    WavLUTVals.wav_normalize (List.replicate L c) target =
      List.replicate target 2048 :=
  wav_normalize_const c L target hL

theorem C1_constant_to_2048_witness :
    0 < 3 ∧
      WavLUTVals.wav_normalize (List.replicate 3 (7 : ℚ)) 2 =
        List.replicate 2 2048 :=
  ⟨by decide, C1_constant_to_2048 7 3 2 (by decide)⟩

/- ### Unsupported sample widths (C10) -/

/-- C10 (amended): widths outside {1, 2, 4} fail without fallback.
For every source whose sample width is outside `{1, 2, 4}` bytes, the
dtype dispatch of `wav_LUT_vals.py` raises
`ValueError("Unsupported sample width")` (the `unsupportedWidth`
error), so no LUT is produced from that source's data; the exception
is caught by the handler on lines 83–85, which returns `None` — it
does *not* substitute the synthetic sine LUT of §4.5 (that fallback
exists only in `generate.py`). -/
theorem C10_unsupported_width (d : WavLUTVals.WavData) (t : ℕ)
    (h1 : d.width ≠ 1) (h2 : d.width ≠ 2) (h4 : d.width ≠ 4) :
    WavLUTVals.decode_samples d.width d.raw =
        Except.error (WavLUTVals.WavError.unsupportedWidth d.width) ∧
      WavLUTVals.process_wav_vals (some d) t = none := by
  have hd : WavLUTVals.decode_samples d.width d.raw =
      Except.error (WavLUTVals.WavError.unsupportedWidth d.width) := by
    unfold WavLUTVals.decode_samples
    rw [if_neg h1, if_neg h2, if_neg h4]
  refine ⟨hd, ?_⟩
  have hred : WavLUTVals.process_wav_vals (some d) t =
      match WavLUTVals.decode_samples d.width d.raw with
      | .error _ => none
      | .ok audio =>
        some (WavLUTVals.wav_normalize
          (WavLUTVals.wav_resample (WavLUTVals.channel_reduce d.channels audio) t) t) :=
    rfl
  rw [hred, hd]

theorem C10_unsupported_width_witness :
    (WavLUTVals.WavData.mk 3 1 [1, 2]).width ≠ 1 ∧
      (WavLUTVals.WavData.mk 3 1 [1, 2]).width ≠ 2 ∧
      (WavLUTVals.WavData.mk 3 1 [1, 2]).width ≠ 4 ∧
      (WavLUTVals.decode_samples (WavLUTVals.WavData.mk 3 1 [1, 2]).width
          (WavLUTVals.WavData.mk 3 1 [1, 2]).raw =
        Except.error (WavLUTVals.WavError.unsupportedWidth
          (WavLUTVals.WavData.mk 3 1 [1, 2]).width) ∧
      WavLUTVals.process_wav_vals (some (WavLUTVals.WavData.mk 3 1 [1, 2])) 4 =
        none) :=
  ⟨by decide, by decide, by decide,
    C10_unsupported_width (WavLUTVals.WavData.mk 3 1 [1, 2]) 4
      (by decide) (by decide) (by decide)⟩

/-- C10 counterexample.
The claim's second half says an unsupported width "triggers the sine
fallback of §4.5".  In `wav_LUT_vals.py` a 3-byte-width source yields
`None` — no LUT at all, sine or otherwise. -/
theorem C10_counterexample :
    WavLUTVals.process_wav_vals (some (WavLUTVals.WavData.mk 3 1 [1, 2, 3])) 4 =
        none ∧
      ∀ lut : List ℕ,
        WavLUTVals.process_wav_vals
            (some (WavLUTVals.WavData.mk 3 1 [1, 2, 3])) 4 ≠ some lut := by
  constructor
  · rfl
  · intro lut h
    exact Option.noConfusion h

/- ### Decode-failure fallback (C4) -/

/-- C4 (amended): the `generate.py` sine fallback, with isolation.
In `generate.py`, a source whose read/decode fails (the `except`
branch) yields the placeholder sine LUT of the requested length with
all values in `[0, 4095]` and sample rate 44100, and, the per-source
processing being independent, changing a failing source never changes
any other source's output.  (In `wav_LUT_vals.py` the failed source
instead yields `None` and is dropped — see the C4 counterexample.) -/
theorem C4_decode_failure_fallback (srcs : List (Option (Generate.DecodedWav × ℕ)))
    (j n : ℕ) (hj : j < srcs.length) (hfail : srcs.getD j none = none) :
    (Generate.processBatch srcs n).getD j ([], 0) =
        (Generate.generate_sine_lut 4095 n, 44100) ∧
      (Generate.generate_sine_lut 4095 n).length = n ∧
      (∀ v ∈ Generate.generate_sine_lut 4095 n, 0 ≤ v ∧ v ≤ 4095) ∧
      ∀ srcs' : List (Option (Generate.DecodedWav × ℕ)),
        srcs'.length = srcs.length →
        ∀ i, i < srcs.length → i ≠ j → srcs'.getD i none = srcs.getD i none →
          (Generate.processBatch srcs' n).getD i ([], 0) =
            (Generate.processBatch srcs n).getD i ([], 0) := by
  refine ⟨?_, sine_lut_length _ _, sine_lut_mem_bounds (by norm_num) n, ?_⟩
  · unfold Generate.processBatch
    rw [getD_map_lt _ _ hj _ none, hfail]
    rfl
  · intro srcs' hlen i hi hij hagree
    unfold Generate.processBatch
    rw [getD_map_lt _ _ (by omega : i < srcs'.length) _ none,
      getD_map_lt _ _ hi _ none, hagree]

theorem C4_decode_failure_fallback_witness :
    0 < ([none] : List (Option (Generate.DecodedWav × ℕ))).length ∧
      ([none] : List (Option (Generate.DecodedWav × ℕ))).getD 0 none = none ∧
      ((Generate.processBatch [none] 2).getD 0 ([], 0) =
          (Generate.generate_sine_lut 4095 2, 44100) ∧
        (Generate.generate_sine_lut 4095 2).length = 2 ∧
        (∀ v ∈ Generate.generate_sine_lut 4095 2, 0 ≤ v ∧ v ≤ 4095) ∧
        ∀ srcs' : List (Option (Generate.DecodedWav × ℕ)),
          srcs'.length = ([none] : List (Option (Generate.DecodedWav × ℕ))).length →
          ∀ i, i < ([none] : List (Option (Generate.DecodedWav × ℕ))).length →
            i ≠ 0 →
            srcs'.getD i none =
              ([none] : List (Option (Generate.DecodedWav × ℕ))).getD i none →
            (Generate.processBatch srcs' 2).getD i ([], 0) =
              (Generate.processBatch [none] 2).getD i ([], 0)) :=
  ⟨Nat.zero_lt_one, rfl, C4_decode_failure_fallback [none] 0 2 Nat.zero_lt_one rfl⟩

/-- C4 counterexample.
Claim C4, read against `wav_LUT_vals.py` (whose `except` handler the
claim cites), is false: a failed source (here an unreadable file,
using the spec's scenario length `N = 3333`) yields `None`, not a
sine LUT of length 3333. -/
theorem C4_counterexample :
    WavLUTVals.process_wav_vals none 3333 = none ∧
      ∀ lut : List ℕ, WavLUTVals.process_wav_vals none 3333 ≠ some lut := by
  constructor
  · rfl
  · intro lut h
    exact Option.noConfusion h

end Practical4
